import Mathlib

/-!
# Lambda visitors for `boost::variant` (`variant-visitation/lambda_visitors.cpp`)

A shallow embedding of `variant_tooling` (`functor_traits`, `overload_set`, `overload`,
`boost_visitor_facilitator`, `match`) and of the demo (`variant`, `float_overload`, `main`).

The source is template code: what it *does* is decided by three mechanisms of the C++
language and of `boost::variant`, which the embedding makes explicit:

* template deduction and reference collapsing (`match(TVariant&&)`, `const T& visitable_`);
* overload resolution of the call `visitor(operand)` over the call operators that the
  using-declarations of `overload_set` make visible (ISO C++14 [over.match.best],
  [over.ics.rank]);
* `boost::apply_visitor`, which instantiates that call for every alternative of the variant
  type, converts the callee's result to `Visitor::result_type`, and at run time runs the call
  belonging to the active alternative.

The universe of types is the alternative list of the demo's `variant`
(`int32_t`, `int64_t`, `float`, `double`, `std::string`).  Floating-point arithmetic is a
parameter (`FloatSem`): no theorem depends on how floats round.
-/

set_option autoImplicit false

namespace VariantVisitation

/-! ## Types and values -/

/-- The types of the embedding: the alternatives of `variant` (line 114). -/
inductive Ty where
  | int32
  | int64
  | float
  | double
  | string
  deriving DecidableEq, Repr

/-- Floating-point semantics, left abstract: the carriers of `float` and `double` and the
operations the program applies to them (the standard conversions, the literal `3.141f`, `f++`). -/
structure FloatSem where
  /-- values of `float` -/
  F32 : Type
  /-- values of `double` -/
  F64 : Type
  /-- floating literal `m * 10^-e` with suffix `f` -/
  lit32 : Int → Nat → F32
  /-- the value of `f + 1` for a `float` (what `f++` stores) -/
  inc32 : F32 → F32
  /-- floating-point promotion `float → double` -/
  promote : F32 → F64
  /-- floating-point conversion `double → float` -/
  demote : F64 → F32
  /-- floating-integral conversion to `float` -/
  intToF32 : Int → F32
  /-- floating-integral conversion to `double` -/
  intToF64 : Int → F64
  /-- floating-integral conversion (truncation) from `float` -/
  f32ToInt : F32 → Int
  /-- floating-integral conversion (truncation) from `double` -/
  f64ToInt : F64 → Int

/-- Values of each type.  Integers are carried by their mathematical value. -/
def Carrier (fs : FloatSem) : Ty → Type
  | .int32 => Int
  | .int64 => Int
  | .float => fs.F32
  | .double => fs.F64
  | .string => String

/-- A value together with its type. -/
structure TVal (fs : FloatSem) where
  ty : Ty
  val : Carrier fs ty

/-- Reduction of an integer to the range of `int32_t` (integral conversion to a narrower
signed type: the value modulo `2^32`). -/
def wrapInt32 (n : Int) : Int := (n + 2 ^ 31) % 2 ^ 32 - 2 ^ 31

/-- Reduction of an integer to the range of `int64_t`. -/
def wrapInt64 (n : Int) : Int := (n + 2 ^ 63) % 2 ^ 64 - 2 ^ 63

/-- Ranks of standard conversion sequences ([over.ics.scs], Table 12), best first. -/
inductive Rank where
  | exact
  | promotion
  | conversion
  deriving DecidableEq, Repr

/-- Numeric position of a rank: smaller is better. -/
def Rank.toNat : Rank → Nat
  | .exact => 0
  | .promotion => 1
  | .conversion => 2

/-- The implicit conversion from type `a` to type `b` and its rank, if there is one.
`float → double` is the only promotion among these types (`int32_t` is `int`, which is not
promoted); the other arithmetic pairs are integral, floating or floating-integral
conversions; `std::string` converts to and from no arithmetic type. -/
def stdConv : Ty → Ty → Option Rank
  | .int32, .int32 => some .exact
  | .int64, .int64 => some .exact
  | .float, .float => some .exact
  | .double, .double => some .exact
  | .string, .string => some .exact
  | .float, .double => some .promotion
  | .string, _ => none
  | _, .string => none
  | _, _ => some .conversion

/-- The value-level effect of the implicit conversion `stdConv a b`. -/
def convert (fs : FloatSem) : (a b : Ty) → Carrier fs a → Option (Carrier fs b)
  | .int32, .int32, x => some x
  | .int32, .int64, x => some x
  | .int32, .float, x => some (fs.intToF32 x)
  | .int32, .double, x => some (fs.intToF64 x)
  | .int64, .int32, x => some (wrapInt32 x)
  | .int64, .int64, x => some x
  | .int64, .float, x => some (fs.intToF32 x)
  | .int64, .double, x => some (fs.intToF64 x)
  | .float, .int32, x => some (wrapInt32 (fs.f32ToInt x))
  | .float, .int64, x => some (wrapInt64 (fs.f32ToInt x))
  | .float, .float, x => some x
  | .float, .double, x => some (fs.promote x)
  | .double, .int32, x => some (wrapInt32 (fs.f64ToInt x))
  | .double, .int64, x => some (wrapInt64 (fs.f64ToInt x))
  | .double, .float, x => some (fs.demote x)
  | .double, .double, x => some x
  | .string, .string, x => some x
  | .int32, .string, _ => none
  | .int64, .string, _ => none
  | .float, .string, _ => none
  | .double, .string, _ => none
  | .string, .int32, _ => none
  | .string, .int64, _ => none
  | .string, .float, _ => none
  | .string, .double, _ => none

/-- The object a reference of type `b&` refers to when it is bound to an object of type `a`:
the object itself when the types agree, nothing otherwise. -/
def sameObject (fs : FloatSem) : (a b : Ty) → Carrier fs a → Option (Carrier fs b)
  | .int32, .int32, x => some x
  | .int64, .int64, x => some x
  | .float, .float, x => some x
  | .double, .double, x => some x
  | .string, .string, x => some x
  | .int32, .int64, _ => none
  | .int32, .float, _ => none
  | .int32, .double, _ => none
  | .int32, .string, _ => none
  | .int64, .int32, _ => none
  | .int64, .float, _ => none
  | .int64, .double, _ => none
  | .int64, .string, _ => none
  | .float, .int32, _ => none
  | .float, .int64, _ => none
  | .float, .double, _ => none
  | .float, .string, _ => none
  | .double, .int32, _ => none
  | .double, .int64, _ => none
  | .double, .float, _ => none
  | .double, .string, _ => none
  | .string, .int32, _ => none
  | .string, .int64, _ => none
  | .string, .float, _ => none
  | .string, .double, _ => none

/-! ## Output stream -/

/-- One insertion into `std::cout`. -/
inductive Tok (fs : FloatSem) where
  | text (s : String)
  | val (t : Ty) (x : Carrier fs t)
  | endl

/-- The contents of `std::cout`, oldest first. -/
abbrev Out (fs : FloatSem) := List (Tok fs)

/-! ## Handlers -/

/-- How a call operator declares its parameter: `U`, `const U&` or `U&`. -/
inductive Mode where
  | byValue
  | constRef
  | mutRef
  deriving DecidableEq, Repr

/-- A functor with one non-template call operator
`result operator()(param) [const]`, as the closure types and `float_overload` of the source.
`body arg out` returns the result, the final value of the parameter object and the output
stream. -/
structure Handler (fs : FloatSem) where
  param : Ty
  mode : Mode
  constCall : Bool
  result : Ty
  body : Carrier fs param → Out fs → Carrier fs result × Carrier fs param × Out fs

/-- The type `decltype(&Func::operator())`: a pointer to member function
`Result (T::*)(Args...)` or `Result (T::*)(Args...) const`. -/
structure MemFnPtr where
  result : Ty
  args : List (Ty × Mode)
  isConst : Bool

/-- `decltype(&Func::operator())` for a handler. -/
def Handler.callOperatorType {fs : FloatSem} (h : Handler fs) : MemFnPtr :=
  ⟨h.result, [(h.param, h.mode)], h.constCall⟩

/-- `functor_traits_helper<...>::result_type` (lines 11-22): both specialisations, for const
and for non-const member functions, name `Result`. -/
def functor_traits_helper_result_type : MemFnPtr → Ty
  | ⟨result, _, true⟩ => result
  | ⟨result, _, false⟩ => result

/-- `functor_traits<Func>::result_type` (lines 30-33). -/
def functor_traits_result_type {fs : FloatSem} (Func : Handler fs) : Ty :=
  functor_traits_helper_result_type Func.callOperatorType

/-! ## `overload_set` and `overload` -/

/-- `overload_set<TF, TFs...>` (lines 44-70): the base case holds one functor, the recursive
case a functor and the overload set of the rest, both as base classes. -/
inductive overload_set (fs : FloatSem) where
  | base (TF : Handler fs)
  | cons (TF : Handler fs) (rest : overload_set fs)

/-- `overload_set<...>::result_type` (lines 48 and 62). -/
def overload_set.result_type {fs : FloatSem} : overload_set fs → Ty
  | .base TF => functor_traits_result_type TF
  | .cons _ rest => rest.result_type

/-- The call operators visible in an `overload_set`: `using TF::operator()` and
`using overload_set<TFs...>::operator()` (lines 46-47, 63). -/
def overload_set.callOperators {fs : FloatSem} : overload_set fs → List (Handler fs)
  | .base TF => [TF]
  | .cons TF rest => TF :: rest.callOperators

/-- `overload` (lines 76-81): the constructor of `overload_set<TFs...>` applied to the pack of
functors (lines 50-55, 65-69); the first argument initialises `TF`, the rest the base
`overload_set<TFs...>`.  There is no `overload_set<>`: an empty pack has no instantiation. -/
def overload {fs : FloatSem} : List (Handler fs) → Option (overload_set fs)
  | [] => none
  | [f] => some (.base f)
  | f :: g :: rest =>
    match overload (g :: rest) with
    | some os => some (.cons f os)
    | none => none

/-! ## Overload resolution of `visitor(operand)` -/

/-- What a parameter is initialised with: a copy or temporary, or a reference bound directly
to the argument object, to a const or to a non-const type. -/
inductive Binding where
  | value
  | refToConst
  | refToNonConst
  deriving DecidableEq, Repr

/-- An implicit conversion sequence: its rank and the way the parameter is bound. -/
structure ICS where
  rank : Rank
  binding : Binding
  deriving DecidableEq, Repr

/-- Conversion sequence `s1` is better than `s2` ([over.ics.rank]/3): a better rank, or, at
equal rank, both are direct reference bindings and `s1` refers to the less cv-qualified
type. -/
def ICS.better (s1 s2 : ICS) : Bool :=
  decide (s1.rank.toNat < s2.rank.toNat) ||
    (decide (s1.rank = s2.rank) && decide (s1.binding = .refToNonConst) &&
      decide (s2.binding = .refToConst))

/-- The conversion sequence that initialises the parameter of `h` from the operand, an lvalue
of type `t` (const-qualified iff `constOperand`); `none` when the parameter cannot be
initialised.  A non-const lvalue reference binds only to a non-const object of its own type;
a reference to const binds directly to an object of its own type and otherwise to a converted
temporary. -/
def argICS {fs : FloatSem} (h : Handler fs) (t : Ty) (constOperand : Bool) : Option ICS :=
  match h.mode with
  | .byValue => (stdConv t h.param).map (fun r => ⟨r, .value⟩)
  | .constRef =>
    if t = h.param then some ⟨.exact, .refToConst⟩
    else (stdConv t h.param).map (fun r => ⟨r, .value⟩)
  | .mutRef =>
    if t = h.param ∧ constOperand = false then some ⟨.exact, .refToNonConst⟩ else none

/-- The conversion sequence of the implied object argument: the visitor is a non-const lvalue
(the local `visitor` of line 100), bound to `overload_set&` by a non-const call operator and
to `const overload_set&` by a const one. -/
def objICS {fs : FloatSem} (h : Handler fs) : ICS :=
  if h.constCall then ⟨.exact, .refToConst⟩ else ⟨.exact, .refToNonConst⟩

/-- Candidate `f` is a better function than candidate `g` for the operand
([over.match.best]/1): no argument converts worse and some argument converts better. -/
def betterCandidate {fs : FloatSem} (t : Ty) (constOperand : Bool) (f g : Handler fs) : Bool :=
  match argICS f t constOperand, argICS g t constOperand with
  | some sf, some sg =>
    !(objICS g).better (objICS f) && !sg.better sf &&
      ((objICS f).better (objICS g) || sf.better sg)
  | _, _ => false

/-- The viable call operators for the operand. -/
def viable {fs : FloatSem} (os : overload_set fs) (t : Ty) (constOperand : Bool) :
    List (Handler fs) :=
  os.callOperators.filter (fun h => (argICS h t constOperand).isSome)

/-- Candidate `f` is better than every other candidate of the list: the only candidate it is
not better than is itself. -/
def isBest {fs : FloatSem} (t : Ty) (constOperand : Bool) (cands : List (Handler fs))
    (f : Handler fs) : Bool :=
  cands.countP (fun g => !betterCandidate t constOperand f g) == 1

/-- Reasons for which the program is ill-formed. -/
inductive CompileError where
  | emptyPack
  | noViable (t : Ty)
  | ambiguous (t : Ty)
  | resultNotConvertible (t : Ty) (r : Ty) (target : Ty)
  deriving DecidableEq, Repr

/-- Overload resolution of `visitor(operand)` for an operand of type `t`: the one viable call
operator that is better than all others; the call is ill-formed when there is none. -/
def resolve {fs : FloatSem} (os : overload_set fs) (t : Ty) (constOperand : Bool) :
    Except CompileError (Handler fs) :=
  match (viable os t constOperand).filter
      (isBest t constOperand (viable os t constOperand)) with
  | [f] => .ok f
  | _ =>
    if (viable os t constOperand).isEmpty then .error (.noViable t) else .error (.ambiguous t)

/-! ## `boost::variant` and `boost::apply_visitor` -/

/-- A value of `boost::variant<alts...>`: the active alternative and its payload. -/
structure boost_variant (fs : FloatSem) (alts : List Ty) where
  which : Ty
  mem : which ∈ alts
  payload : Carrier fs which

/-- What a dispatch leaves behind: the returned value, the visited variant and `std::cout`. -/
structure Outcome (fs : FloatSem) (alts : List Ty) where
  result : TVal fs
  value : boost_variant fs alts
  out : Out fs

/-- Instantiation of the visitor call for alternative `t`, as `boost::apply_visitor` does for
each alternative: `return visitor(operand);` in a function returning `Visitor::result_type`.
The call must resolve and the callee's result must convert to the result type. -/
def instantiate {fs : FloatSem} (os : overload_set fs) (constOperand : Bool) (t : Ty) :
    Except CompileError (Handler fs) :=
  match resolve os t constOperand with
  | .error e => .error e
  | .ok h =>
    if (stdConv h.result os.result_type).isSome then .ok h
    else .error (.resultNotConvertible t h.result os.result_type)

/-- Instantiation for all alternatives of the variant type, in order. -/
def instantiateAll {fs : FloatSem} (os : overload_set fs) (constOperand : Bool) :
    List Ty → Except CompileError Unit
  | [] => .ok ()
  | t :: ts =>
    match instantiate os constOperand t with
    | .error e => .error e
    | .ok _ => instantiateAll os constOperand ts

/-- The call `h(arg)`: the result, the argument object after the call (changed only through a
non-const reference parameter) and the output stream. -/
def invoke {fs : FloatSem} (h : Handler fs) (arg : Carrier fs h.param) (out : Out fs) :
    Carrier fs h.result × Carrier fs h.param × Out fs :=
  ((h.body arg out).1, (if h.mode = .mutRef then (h.body arg out).2.1 else arg),
    (h.body arg out).2.2)

/-- The run-time part of a visit: `h` is called on the payload converted to its parameter
type, its result is converted to `R`, and a non-const reference parameter writes through to
the payload. -/
def visit {fs : FloatSem} {alts : List Ty} (h : Handler fs) (R : Ty)
    (v : boost_variant fs alts) (out : Out fs) : Option (Outcome fs alts) :=
  match convert fs v.which h.param v.payload with
  | none => none
  | some arg =>
    match convert fs h.result R (invoke h arg out).1 with
    | none => none
    | some res =>
      some ⟨⟨R, res⟩,
        ⟨v.which, v.mem,
          if h.mode = .mutRef then
            (sameObject fs h.param v.which (invoke h arg out).2.1).getD v.payload
          else v.payload⟩,
        (invoke h arg out).2.2⟩

/-- `boost::apply_visitor(visitor, visitable)`: ill-formed unless the visitor call instantiates
for every alternative; at run time the call for the active alternative is executed.  (The
last branch is never taken: an instantiated call has both conversions, see
`apply_visitor_ok`.) -/
def apply_visitor {fs : FloatSem} {alts : List Ty} (visitor : overload_set fs)
    (constOperand : Bool) (visitable : boost_variant fs alts) (out : Out fs) :
    Except CompileError (Outcome fs alts) :=
  match instantiateAll visitor constOperand alts with
  | .error e => .error e
  | .ok _ =>
    match instantiate visitor constOperand visitable.which with
    | .error e => .error e
    | .ok h =>
      match visit h visitor.result_type visitable out with
      | some o => .ok o
      | none => .error (.noViable visitable.which)

/-! ## `boost_visitor_facilitator` and `match` -/

/-- Reference part of a type: none, `&` or `&&`. -/
inductive RefQual where
  | none
  | lvalue
  | rvalue
  deriving DecidableEq, Repr

/-- The variant type with cv- and reference qualification, as a template argument. -/
structure QualType where
  isConst : Bool
  ref : RefQual
  deriving DecidableEq, Repr

/-- The argument expression handed to `match`. -/
inductive ArgCat where
  | lvalue
  | constLvalue
  | rvalue
  | constRvalue
  deriving DecidableEq, Repr

/-- Deduction of `TVariant` for the forwarding reference `TVariant&& v` (line 108): an lvalue
of type `V` deduces `V&`, an rvalue deduces `V`. -/
def deduceTVariant : ArgCat → QualType
  | .lvalue => ⟨false, .lvalue⟩
  | .constLvalue => ⟨true, .lvalue⟩
  | .rvalue => ⟨false, .none⟩
  | .constRvalue => ⟨true, .none⟩

/-- The type `const T`: a cv-qualifier applied to a reference type is ignored. -/
def addConst (T : QualType) : QualType :=
  match T.ref with
  | .none => ⟨true, .none⟩
  | _ => T

/-- The type `T&`, by reference collapsing an lvalue reference. -/
def addLvalueRef (T : QualType) : QualType := ⟨T.isConst, .lvalue⟩

/-- `boost_visitor_facilitator<T>` (lines 86-104): the template argument and the object the
member `visitable_` refers to. -/
structure boost_visitor_facilitator (fs : FloatSem) (alts : List Ty) where
  T : QualType
  visitable_ : boost_variant fs alts

/-- The declared type of the member `visitable_`, `const T&` (line 87). -/
def boost_visitor_facilitator.visitableType {fs : FloatSem} {alts : List Ty}
    (f : boost_visitor_facilitator fs alts) : QualType :=
  addLvalueRef (addConst f.T)

/-- `boost_visitor_facilitator::operator()` (lines 95-103): the visitors are composed by
`overload` and the composed visitor is applied to `visitable_`. -/
def boost_visitor_facilitator.call {fs : FloatSem} {alts : List Ty}
    (f : boost_visitor_facilitator fs alts) (visitors : List (Handler fs)) (out : Out fs) :
    Except CompileError (Outcome fs alts) :=
  match overload visitors with
  | none => .error .emptyPack
  | some visitor => apply_visitor visitor f.visitableType.isConst f.visitable_ out

/-- `variant_tooling::match` (lines 107-111). -/
def match_ {fs : FloatSem} {alts : List Ty} (cat : ArgCat) (v : boost_variant fs alts) :
    boost_visitor_facilitator fs alts :=
  ⟨deduceTVariant cat, v⟩

/-- Whether `match` hands the payload to the visitor as a const object: the const-ness of the
declared type `const T&` of `visitable_` for the deduced `T`. -/
def operandConst (cat : ArgCat) : Bool :=
  (addLvalueRef (addConst (deduceTVariant cat))).isConst

/-! ## The demo -/

/-- The alternatives of `variant` (line 114). -/
def variantAlts : List Ty := [.int32, .int64, .float, .double, .string]

/-- `using variant = boost::variant<int32_t, int64_t, float, double, std::string>`. -/
abbrev variant (fs : FloatSem) := boost_variant fs variantAlts

/-- `float_overload` (lines 116-125): prints the float, increments it, returns 0. -/
def float_overload (fs : FloatSem) : Handler fs where
  param := .float
  mode := .mutRef
  constCall := true
  result := .int32
  body := fun f out => ((0 : Int), fs.inc32 f, out ++ [.text "float: ", .val .float f, .endl])

/-- The closure of lines 140-143. -/
def i32_lambda (fs : FloatSem) : Handler fs where
  param := .int32
  mode := .byValue
  constCall := true
  result := .int32
  body := fun i32 out => ((1 : Int), i32, out ++ [.text "i32: ", .val .int32 i32, .endl])

/-- The closure of lines 144-147. -/
def i64_lambda (fs : FloatSem) : Handler fs where
  param := .int64
  mode := .byValue
  constCall := true
  result := .int32
  body := fun i64 out => ((2 : Int), i64, out ++ [.text "i64: ", .val .int64 i64, .endl])

/-- The closure of lines 148-151. -/
def double_lambda (fs : FloatSem) : Handler fs where
  param := .double
  mode := .byValue
  constCall := true
  result := .int32
  body := fun d out => ((3 : Int), d, out ++ [.text "double: ", .val .double d, .endl])

/-- The closure of lines 152-155. -/
def string_lambda (fs : FloatSem) : Handler fs where
  param := .string
  mode := .byValue
  constCall := true
  result := .int32
  body := fun s out => ((4 : Int), s, out ++ [.text "string: ", .val .string s, .endl])

/-- The visitors of the call in `main`, in source order (lines 139-155). -/
def demoVisitors (fs : FloatSem) : List (Handler fs) :=
  [float_overload fs, i32_lambda fs, i64_lambda fs, double_lambda fs, string_lambda fs]

/-- The variable `someValue` as initialised in line 129: it holds the float `3.141f`. -/
def someValue (fs : FloatSem) : variant fs := ⟨.float, by decide, fs.lit32 3141 3⟩

/-- What `main` leaves behind: its return value and `std::cout`. -/
structure MainResult (fs : FloatSem) where
  exitCode : Int
  out : Out fs

/-- `main` (lines 127-160); `argv` includes the program name, `argc` is its length.
`someValue` is a non-const lvalue, reassigned to `std::string(argv[1])` when `argc > 1`. -/
def main (fs : FloatSem) (argv : List String) : Except CompileError (MainResult fs) :=
  let value : variant fs :=
    match argv with
    | _ :: a :: _ => ⟨.string, by decide, a⟩
    | _ => someValue fs
  match (match_ .lvalue value).call (demoVisitors fs) [] with
  | .error e => .error e
  | .ok o => .ok ⟨0, o.out ++ [.text "v: ", .val o.result.ty o.result.val, .endl]⟩

/-- Floating-point semantics for evaluating examples: floats and doubles as the rational
numbers they denote, every operation exact. -/
def exactFloats : FloatSem where
  F32 := ℚ
  F64 := ℚ
  lit32 := fun m e => (m : ℚ) / (10 : ℚ) ^ e
  inc32 := fun x => x + 1
  promote := fun x => x
  demote := fun x => x
  intToF32 := fun n => (n : ℚ)
  intToF64 := fun n => (n : ℚ)
  f32ToInt := fun x => Int.tdiv x.num x.den
  f64ToInt := fun x => Int.tdiv x.num x.den

/-! ## Notions used to state the properties -/

/-- The dispatch `match(v)(hs...)` on a variant holding payload `p` of type `h.param` behaves
like the single call `h(p)`: it returns the result of `h`, leaves in the variant what `h`
leaves in its argument and in `std::cout` what `h` writes. -/
def DispatchesAs {fs : FloatSem} {alts : List Ty} (cat : ArgCat) (hs : List (Handler fs))
    (h : Handler fs) (mem : h.param ∈ alts) (p : Carrier fs h.param) (out : Out fs) : Prop :=
  (match_ cat (⟨h.param, mem, p⟩ : boost_variant fs alts)).call hs out =
    .ok ⟨⟨h.result, (invoke h p out).1⟩, ⟨h.param, mem, (invoke h p out).2.1⟩,
      (invoke h p out).2.2⟩

/-- A handler without side effects: it writes nothing to `std::cout` and leaves its argument
as it was. -/
def Handler.sideEffectFree {fs : FloatSem} (h : Handler fs) : Prop :=
  ∀ (arg : Carrier fs h.param) (out : Out fs),
    (invoke h arg out).2.1 = arg ∧ (invoke h arg out).2.2 = out

/-- The composed visitor applied `n` times in a row to the same variant object: the results
in order, the variant and `std::cout` after the last visit. -/
def dispatchRepeat {fs : FloatSem} {alts : List Ty} (visitor : overload_set fs)
    (constOperand : Bool) :
    Nat → boost_variant fs alts → Out fs →
      Except CompileError (List (TVal fs) × boost_variant fs alts × Out fs)
  | 0, v, out => .ok ([], v, out)
  | n + 1, v, out =>
    match apply_visitor visitor constOperand v out with
    | .error e => .error e
    | .ok o =>
      match dispatchRepeat visitor constOperand n o.value o.out with
      | .error e => .error e
      | .ok (rs, v', out') => .ok (o.result :: rs, v', out')

/-! ## Further handlers, used as concrete inputs -/

/-- A closure `[](float) { return 4294967301L; }`: takes a float, returns an `int64_t`. -/
def wide_float_lambda (fs : FloatSem) : Handler fs where
  param := .float
  mode := .byValue
  constCall := true
  result := .int64
  body := fun f out => ((4294967301 : Int), f, out)

/-- A closure `[](const float& f) { return 5; }`. -/
def float_cref_lambda (fs : FloatSem) : Handler fs where
  param := .float
  mode := .constRef
  constCall := true
  result := .int32
  body := fun f out => ((5 : Int), f, out)

/-- A closure `[](int32_t) { return 7; }`: a second handler for `int32_t`. -/
def i32_lambda_seven (fs : FloatSem) : Handler fs where
  param := .int32
  mode := .byValue
  constCall := true
  result := .int32
  body := fun i32 out => ((7 : Int), i32, out)

/-! ## Lemmas: conversions, composition, overload resolution, visitation -/

theorem stdConv_self (a : Ty) : stdConv a a = some .exact := by cases a <;> rfl

theorem stdConv_exact_iff (a b : Ty) : stdConv a b = some .exact ↔ a = b := by
  cases a <;> cases b <;> simp [stdConv]

theorem convert_self (fs : FloatSem) (a : Ty) (x : Carrier fs a) : convert fs a a x = some x := by
  cases a <;> rfl

theorem sameObject_self (fs : FloatSem) (a : Ty) (x : Carrier fs a) :
    sameObject fs a a x = some x := by
  cases a <;> rfl

theorem convert_isSome (fs : FloatSem) (a b : Ty) (x : Carrier fs a) :
    (convert fs a b x).isSome = (stdConv a b).isSome := by
  cases a <;> cases b <;> rfl

theorem overload_spec {fs : FloatSem} (hs : List (Handler fs)) (hne : hs ≠ []) :
    ∃ os, overload hs = some os ∧ os.callOperators = hs ∧
      os.result_type = (hs.getLast hne).result := by
  induction hs with
  | nil => exact absurd rfl hne
  | cons f rest ih =>
    cases rest with
    | nil => exact ⟨.base f, rfl, rfl, by cases f; rename_i c _ _; cases c <;> rfl⟩
    | cons g rest =>
      obtain ⟨os, h1, h2, h3⟩ := ih (by simp)
      refine ⟨.cons f os, ?_, ?_, ?_⟩
      · simp [overload, h1]
      · simp [overload_set.callOperators, h2]
      · simp [overload_set.result_type, h3]

theorem argICS_convertible {fs : FloatSem} (h : Handler fs) (t : Ty) (c : Bool)
    (hv : (argICS h t c).isSome) : (stdConv t h.param).isSome := by
  unfold argICS at hv
  cases hm : h.mode <;> simp only [hm] at hv
  · simpa using hv
  · by_cases ht : t = h.param
    · rw [← ht, stdConv_self]; rfl
    · simpa [ht] using hv
  · by_cases ht : t = h.param ∧ c = false
    · rw [← ht.1, stdConv_self]; rfl
    · simp [ht] at hv

theorem resolve_ok_mem {fs : FloatSem} {os : overload_set fs} {t : Ty} {c : Bool}
    {h : Handler fs} (hr : resolve os t c = .ok h) :
    h ∈ viable os t c ∧ isBest t c (viable os t c) h = true := by
  unfold resolve at hr
  split at hr
  · rename_i f heq
    cases hr
    have : h ∈ (viable os t c).filter (isBest t c (viable os t c)) := by rw [heq]; simp
    simpa [List.mem_filter] using this
  · split at hr <;> cases hr

theorem viable_mem {fs : FloatSem} {os : overload_set fs} {t : Ty} {c : Bool}
    {h : Handler fs} :
    h ∈ viable os t c ↔ h ∈ os.callOperators ∧ (argICS h t c).isSome := by
  simp [viable, List.mem_filter]

theorem instantiate_ok_iff {fs : FloatSem} (os : overload_set fs) (c : Bool) (t : Ty)
    (h : Handler fs) :
    instantiate os c t = .ok h ↔
      resolve os t c = .ok h ∧ (stdConv h.result os.result_type).isSome := by
  unfold instantiate
  cases hr : resolve os t c with
  | error e => simp
  | ok g =>
    by_cases hc : (stdConv g.result os.result_type).isSome
    · simp only [hc, if_true]
      constructor
      · intro hg; cases hg; exact ⟨rfl, hc⟩
      · rintro ⟨hg, _⟩; exact hg
    · simp only [hc]
      constructor
      · intro hg; simp at hg
      · rintro ⟨hg, hc2⟩; cases hg; exact absurd hc2 hc

theorem instantiateAll_ok_iff {fs : FloatSem} (os : overload_set fs) (c : Bool)
    (alts : List Ty) :
    instantiateAll os c alts = .ok () ↔ ∀ t ∈ alts, ∃ h, instantiate os c t = .ok h := by
  induction alts with
  | nil => simp [instantiateAll]
  | cons t ts ih =>
    unfold instantiateAll
    cases hi : instantiate os c t with
    | error e => simp [hi]
    | ok g => simp [hi, ih]

theorem instantiateAll_cases {fs : FloatSem} (os : overload_set fs) (c : Bool)
    (alts : List Ty) :
    instantiateAll os c alts = .ok () ∨ ∃ e, instantiateAll os c alts = .error e := by
  cases h : instantiateAll os c alts with
  | error e => exact Or.inr ⟨e, rfl⟩
  | ok u => exact Or.inl rfl

/-- The outcome of a well-formed visit, spelled out. -/
theorem apply_visitor_ok {fs : FloatSem} {alts : List Ty} (os : overload_set fs) (c : Bool)
    (v : boost_variant fs alts) (out : Out fs)
    (hwf : instantiateAll os c alts = .ok ()) :
    ∃ h arg res, resolve os v.which c = .ok h ∧
      convert fs v.which h.param v.payload = some arg ∧
      convert fs h.result os.result_type (invoke h arg out).1 = some res ∧
      apply_visitor os c v out =
        .ok ⟨⟨os.result_type, res⟩,
          ⟨v.which, v.mem,
            if h.mode = .mutRef then
              (sameObject fs h.param v.which (invoke h arg out).2.1).getD v.payload
            else v.payload⟩,
          (invoke h arg out).2.2⟩ := by
  obtain ⟨h, hi⟩ := (instantiateAll_ok_iff os c alts).1 hwf v.which v.mem
  obtain ⟨hr, hc⟩ := (instantiate_ok_iff os c v.which h).1 hi
  have hv := (viable_mem.1 (resolve_ok_mem hr).1).2
  have h1 : (convert fs v.which h.param v.payload).isSome := by
    rw [convert_isSome]; exact argICS_convertible h v.which c hv
  obtain ⟨arg, harg⟩ := Option.isSome_iff_exists.1 h1
  have h2 : (convert fs h.result os.result_type (invoke h arg out).1).isSome := by
    rw [convert_isSome]; exact hc
  obtain ⟨res, hres⟩ := Option.isSome_iff_exists.1 h2
  refine ⟨h, arg, res, hr, harg, hres, ?_⟩
  simp only [apply_visitor, hwf, hi, visit, harg, hres]

theorem apply_visitor_error {fs : FloatSem} {alts : List Ty} (os : overload_set fs) (c : Bool)
    (v : boost_variant fs alts) (out : Out fs) (e : CompileError)
    (hwf : instantiateAll os c alts = .error e) :
    apply_visitor os c v out = .error e := by
  simp only [apply_visitor, hwf]

theorem countP_two_le {α : Type} (p : α → Bool) (l : List α) (a b : α) (ha : a ∈ l)
    (hb : b ∈ l) (hab : a ≠ b) (hpa : p a = true) (hpb : p b = true) : 2 ≤ l.countP p := by
  induction l with
  | nil => cases ha
  | cons x xs ih =>
    rw [List.countP_cons]
    rcases List.mem_cons.1 ha with hax | ha'
    · rcases List.mem_cons.1 hb with hbx | hb'
      · exact absurd (hax.trans hbx.symm) hab
      · have : 0 < xs.countP p := List.countP_pos_iff.2 ⟨b, hb', hpb⟩
        rw [← hax, if_pos hpa]
        omega
    · rcases List.mem_cons.1 hb with hbx | hb'
      · have : 0 < xs.countP p := List.countP_pos_iff.2 ⟨a, ha', hpa⟩
        rw [← hbx, if_pos hpb]
        omega
      · have := ih ha' hb'
        omega

theorem ICS_better_irrefl (s : ICS) : s.better s = false := by
  cases s with
  | mk r b => cases r <;> cases b <;> rfl

theorem betterCandidate_irrefl {fs : FloatSem} (t : Ty) (c : Bool) (f : Handler fs) :
    betterCandidate t c f f = false := by
  unfold betterCandidate
  cases h : argICS f t c with
  | none => rfl
  | some s => simp [ICS_better_irrefl]

theorem argICS_exact_param {fs : FloatSem} (f : Handler fs) (t : Ty) (c : Bool) (s : ICS)
    (h : argICS f t c = some s) (hr : s.rank = .exact) : f.param = t := by
  unfold argICS at h
  cases hm : f.mode <;> simp only [hm] at h
  · cases hc : stdConv t f.param with
    | none => simp [hc] at h
    | some r =>
      simp [hc] at h
      subst h
      simp at hr
      subst hr
      exact ((stdConv_exact_iff _ _).1 hc).symm
  · by_cases ht : t = f.param
    · exact ht.symm
    · simp only [ht, if_false] at h
      cases hc : stdConv t f.param with
      | none => simp [hc] at h
      | some r =>
        simp [hc] at h
        subst h
        simp at hr
        subst hr
        exact ((stdConv_exact_iff _ _).1 hc).symm
  · by_cases ht : t = f.param ∧ c = false
    · exact ht.1.symm
    · simp [ht] at h

theorem argICS_own_type {fs : FloatSem} (h : Handler fs) (c : Bool)
    (hb : c = false ∨ h.mode ≠ .mutRef) :
    ∃ s, argICS h h.param c = some s ∧ s.rank = .exact := by
  unfold argICS
  cases hm : h.mode
  · exact ⟨⟨.exact, .value⟩, by simp [stdConv_self], rfl⟩
  · exact ⟨⟨.exact, .refToConst⟩, by simp, rfl⟩
  · rcases hb with hb | hb
    · exact ⟨⟨.exact, .refToNonConst⟩, by simp [hb], rfl⟩
    · exact absurd hm hb

theorem Rank_toNat_exact (r : Rank) (h : ¬ 0 < r.toNat) : r = .exact := by
  cases r <;> simp [Rank.toNat] at h ⊢

theorem betterCandidate_exact {fs : FloatSem} (t : Ty) (c : Bool) (f g : Handler fs) (sg : ICS)
    (hg : argICS g t c = some sg) (hr : sg.rank = .exact)
    (hb : betterCandidate t c f g = true) : f.param = t := by
  unfold betterCandidate at hb
  rw [hg] at hb
  cases hf : argICS f t c with
  | none => simp [hf] at hb
  | some sf =>
    simp only [hf] at hb
    apply argICS_exact_param f t c sf hf
    have h1 : sg.better sf = false := by
      simp only [Bool.and_eq_true, Bool.not_eq_true', Bool.or_eq_true] at hb
      exact hb.1.2
    unfold ICS.better at h1
    simp only [Bool.or_eq_false_iff, decide_eq_false_iff_not] at h1
    apply Rank_toNat_exact
    rw [hr] at h1
    exact h1.1

theorem resolve_exact {fs : FloatSem} (os : overload_set fs) (c : Bool) (h f : Handler fs)
    (hnd : (os.callOperators.map (fun g => g.param)).Nodup) (hmem : h ∈ os.callOperators)
    (hb : c = false ∨ h.mode ≠ .mutRef) (hr : resolve os h.param c = .ok f) : f = h := by
  obtain ⟨hfv, hbest⟩ := resolve_ok_mem hr
  obtain ⟨s, hs, hsr⟩ := argICS_own_type h c hb
  have hhv : h ∈ viable os h.param c := viable_mem.2 ⟨hmem, by simp [hs]⟩
  by_contra hne
  have hbetter : betterCandidate h.param c f h = true := by
    by_contra hnb
    have h2 := countP_two_le (fun g => !betterCandidate h.param c f g) _ f h hfv hhv hne
      (by simp [betterCandidate_irrefl]) (by simpa using hnb)
    unfold isBest at hbest
    simp at hbest
    omega
  have hp := betterCandidate_exact h.param c f h s hs hsr hbetter
  exact hne (List.inj_on_of_nodup_map hnd (viable_mem.1 hfv).1 hmem hp)

theorem overload_some {fs : FloatSem} {hs : List (Handler fs)} {os : overload_set fs}
    (h : overload hs = some os) :
    os.callOperators = hs ∧ ∃ hne : hs ≠ [], os.result_type = (hs.getLast hne).result := by
  have hne : hs ≠ [] := by
    rintro rfl
    cases h
  obtain ⟨os', h1, h2, h3⟩ := overload_spec hs hne
  rw [h] at h1
  cases h1
  exact ⟨h2, hne, h3⟩

theorem operandConst_eq_false (cat : ArgCat) : operandConst cat = false ↔ cat = .lvalue := by
  cases cat <;> decide

theorem call_eq {fs : FloatSem} {alts : List Ty} (cat : ArgCat) (v : boost_variant fs alts)
    (hs : List (Handler fs)) (os : overload_set fs) (out : Out fs)
    (hos : overload hs = some os) :
    (match_ cat v).call hs out = apply_visitor os (operandConst cat) v out := by
  simp only [boost_visitor_facilitator.call, hos, match_]
  rfl

theorem call_ok_iff {fs : FloatSem} {alts : List Ty} (cat : ArgCat) (v : boost_variant fs alts)
    (hs : List (Handler fs)) (os : overload_set fs) (out : Out fs)
    (hos : overload hs = some os) :
    (∃ o, (match_ cat v).call hs out = .ok o) ↔
      instantiateAll os (operandConst cat) alts = .ok () := by
  rw [call_eq cat v hs os out hos]
  constructor
  · rintro ⟨o, ho⟩
    rcases instantiateAll_cases os (operandConst cat) alts with h | ⟨e, h⟩
    · exact h
    · rw [apply_visitor_error os _ v out e h] at ho
      cases ho
  · intro h
    obtain ⟨_, _, _, _, _, _, hcall⟩ := apply_visitor_ok os (operandConst cat) v out h
    exact ⟨_, hcall⟩

theorem isBest_perm {fs : FloatSem} (t : Ty) (c : Bool) {l l' : List (Handler fs)}
    (hp : l.Perm l') : isBest t c l = isBest t c l' := by
  funext f
  unfold isBest
  rw [hp.countP_eq]

theorem resolve_perm {fs : FloatSem} (os os' : overload_set fs) (t : Ty) (c : Bool)
    (hp : os.callOperators.Perm os'.callOperators) : resolve os t c = resolve os' t c := by
  have hv : (viable os t c).Perm (viable os' t c) := hp.filter _
  have hb : ((viable os t c).filter (isBest t c (viable os t c))).Perm
      ((viable os' t c).filter (isBest t c (viable os' t c))) := by
    rw [isBest_perm t c hv]
    exact hv.filter _
  have he : (viable os t c).isEmpty = (viable os' t c).isEmpty := by
    rw [Bool.eq_iff_iff]
    simp only [List.isEmpty_iff]
    constructor
    · intro h
      rw [h] at hv
      exact hv.symm.eq_nil
    · intro h
      rw [h] at hv
      exact hv.eq_nil
  unfold resolve
  rw [← he]
  generalize (viable os t c).filter (isBest t c (viable os t c)) = L at hb
  generalize (viable os' t c).filter (isBest t c (viable os' t c)) = L' at hb
  match L, L', hb with
  | [], L', hb => rw [hb.symm.eq_nil]
  | [f], L', hb => rw [List.perm_singleton.1 hb.symm]
  | f :: g :: rest, [], hb => exact absurd hb.eq_nil (by simp)
  | f :: g :: rest, [f'], hb => exact absurd (List.perm_singleton.1 hb) (by simp)
  | f :: g :: rest, f' :: g' :: rest', _ => rfl

theorem instantiate_perm {fs : FloatSem} (os os' : overload_set fs) (t : Ty) (c : Bool)
    (hp : os.callOperators.Perm os'.callOperators) (hR : os.result_type = os'.result_type) :
    instantiate os c t = instantiate os' c t := by
  unfold instantiate
  rw [resolve_perm os os' t c hp, hR]

theorem instantiateAll_perm {fs : FloatSem} (os os' : overload_set fs) (c : Bool)
    (alts : List Ty)
    (hp : os.callOperators.Perm os'.callOperators) (hR : os.result_type = os'.result_type) :
    instantiateAll os c alts = instantiateAll os' c alts := by
  induction alts with
  | nil => rfl
  | cons t ts ih =>
    unfold instantiateAll
    rw [instantiate_perm os os' t c hp hR, ih]

theorem apply_visitor_perm {fs : FloatSem} {alts : List Ty} (os os' : overload_set fs)
    (c : Bool) (v : boost_variant fs alts) (out : Out fs)
    (hp : os.callOperators.Perm os'.callOperators) (hR : os.result_type = os'.result_type) :
    apply_visitor os c v out = apply_visitor os' c v out := by
  unfold apply_visitor
  rw [instantiateAll_perm os os' c alts hp hR, instantiate_perm os os' _ c hp hR, hR]

theorem viable_nil_of_no_conv {fs : FloatSem} (os : overload_set fs) (t : Ty) (c : Bool)
    (hnone : ∀ h ∈ os.callOperators, stdConv t h.param = none) : viable os t c = [] := by
  unfold viable
  rw [List.filter_eq_nil_iff]
  intro h hh hv
  have := argICS_convertible h t c hv
  rw [hnone h hh] at this
  cases this

theorem call_error_of_instantiate_error {fs : FloatSem} {alts : List Ty} (cat : ArgCat)
    (v : boost_variant fs alts) (hs : List (Handler fs)) (os : overload_set fs) (out : Out fs)
    (hos : overload hs = some os) (t : Ty) (ht : t ∈ alts)
    (hfail : ∀ h, instantiate os (operandConst cat) t ≠ .ok h) :
    ∃ e, (match_ cat v).call hs out = .error e := by
  rw [call_eq cat v hs os out hos]
  rcases instantiateAll_cases os (operandConst cat) alts with h | ⟨e, h⟩
  · obtain ⟨g, hg⟩ := (instantiateAll_ok_iff os _ alts).1 h t ht
    exact absurd hg (hfail g)
  · exact ⟨e, apply_visitor_error os _ v out e h⟩

theorem instantiate_error_of_resolve_error {fs : FloatSem} (os : overload_set fs) (c : Bool)
    (t : Ty) (e : CompileError) (hr : resolve os t c = .error e) (h : Handler fs) :
    instantiate os c t ≠ .ok h := by
  intro hi
  rw [(instantiate_ok_iff os c t h).1 hi |>.1] at hr
  cases hr

theorem pair_sublist {α : Type} (l : List α) (i j : Nat) (hi : i < l.length)
    (hj : j < l.length) (hij : i < j) : List.Sublist [l[i], l[j]] l := by
  induction l generalizing i j with
  | nil => simp at hi
  | cons x xs ih =>
    cases j with
    | zero => omega
    | succ j =>
      have hj' : j < xs.length := by simpa using hj
      cases i with
      | zero =>
        simp only [List.getElem_cons_zero, List.getElem_cons_succ]
        exact List.Sublist.cons₂ x (List.singleton_sublist.2 (List.getElem_mem hj'))
      | succ i =>
        have hi' : i < xs.length := by simpa using hi
        simp only [List.getElem_cons_succ]
        exact List.Sublist.cons x (ih i j hi' hj' (by omega))

theorem betterCandidate_byValue_const {fs : FloatSem} (t : Ty) (c : Bool) (f a : Handler fs)
    (hf : f.constCall = true) (ha : a.constCall = true) (hp : a.param = t)
    (hm : a.mode = .byValue) : betterCandidate t c f a = false := by
  have hia : argICS a t c = some ⟨.exact, .value⟩ := by
    unfold argICS
    rw [hm, hp]
    simp [stdConv_self]
  unfold betterCandidate
  rw [hia]
  cases hif : argICS f t c with
  | none => rfl
  | some sf =>
    simp only [objICS, hf, ha, if_true, ICS_better_irrefl]
    cases sf with
    | mk r b => cases r <;> cases b <;> rfl

theorem resolve_ambiguous {fs : FloatSem} (os : overload_set fs) (t : Ty) (c : Bool)
    (a b : Handler fs) (hsub : List.Sublist [a, b] os.callOperators)
    (hpa : a.param = t) (hma : a.mode = .byValue) (hpb : b.param = t) (hmb : b.mode = .byValue)
    (hconst : ∀ h ∈ os.callOperators, h.constCall = true) :
    resolve os t c = .error (.ambiguous t) := by
  have hviab : ∀ g : Handler fs, g.param = t → g.mode = .byValue →
      (argICS g t c).isSome = true := by
    intro g hp hm
    unfold argICS
    rw [hm, hp]
    simp [stdConv_self]
  have hsubV : List.Sublist [a, b] (viable os t c) := by
    have := hsub.filter (fun h => (argICS h t c).isSome)
    simpa [viable, List.filter, hviab a hpa hma, hviab b hpb hmb] using this
  have hca : a.constCall = true := hconst a (hsub.subset (by simp))
  have hcb : b.constCall = true := hconst b (hsub.subset (by simp))
  have hnone : (viable os t c).filter (isBest t c (viable os t c)) = [] := by
    rw [List.filter_eq_nil_iff]
    intro f hf hbest
    have hfc : f.constCall = true := hconst f (viable_mem.1 hf).1
    have h2 : 2 ≤ (viable os t c).countP (fun g => !betterCandidate t c f g) := by
      have := hsubV.countP_le (fun g => !betterCandidate t c f g)
      simpa [List.countP_cons, betterCandidate_byValue_const t c f a hfc hca hpa hma,
        betterCandidate_byValue_const t c f b hfc hcb hpb hmb] using this
    unfold isBest at hbest
    simp at hbest
    omega
  have hne : (viable os t c).isEmpty = false := by
    cases hv : viable os t c with
    | nil => rw [hv] at hsubV; cases hsubV
    | cons x xs => rfl
  unfold resolve
  rw [hnone, hne]
  rfl

theorem sameObject_eq_convert {fs : FloatSem} (a b : Ty) (x : Carrier fs a) (h : a = b) :
    sameObject fs a b x = convert fs a b x := by
  subst h
  rw [sameObject_self, convert_self]

theorem sameObject_isSome (fs : FloatSem) (a b : Ty) (x : Carrier fs a) (h : a = b) :
    ∃ y, sameObject fs a b x = some y := by
  subst h
  exact ⟨x, sameObject_self fs a x⟩

theorem argICS_mutRef {fs : FloatSem} (h : Handler fs) (t : Ty) (c : Bool)
    (hm : h.mode = .mutRef) (hv : (argICS h t c).isSome = true) : t = h.param ∧ c = false := by
  unfold argICS at hv
  rw [hm] at hv
  by_cases ht : t = h.param ∧ c = false
  · exact ht
  · simp [ht] at hv

theorem apply_visitor_pure {fs : FloatSem} {alts : List Ty} (os : overload_set fs) (c : Bool)
    (v : boost_variant fs alts) (out : Out fs)
    (hpure : ∀ h ∈ os.callOperators, h.sideEffectFree)
    (hwf : instantiateAll os c alts = .ok ()) :
    ∃ r, apply_visitor os c v out = .ok ⟨r, v, out⟩ := by
  obtain ⟨h, arg, res, hr, harg, _, hcall⟩ := apply_visitor_ok os c v out hwf
  have hv := viable_mem.1 (resolve_ok_mem hr).1
  obtain ⟨hp1, hp2⟩ := hpure h hv.1 arg out
  refine ⟨⟨os.result_type, res⟩, ?_⟩
  rw [hcall, hp2]
  congr 2
  by_cases hm : h.mode = .mutRef
  · obtain ⟨ht, _⟩ := argICS_mutRef h v.which c hm hv.2
    simp only [hm, if_true, hp1]
    rw [sameObject_eq_convert _ _ _ ht.symm]
    cases v with
    | mk w m p =>
      simp only at ht harg ⊢
      subst ht
      rw [convert_self] at harg
      cases harg
      rw [convert_self]
      rfl
  · simp only [hm, if_false]

/-! ## Dispatch to the handler of the active alternative -/

/-- C1, as stated, fails: with handlers `[](float) { return 4294967301L; }` and the demo's
string closure (accepted types `float` and `std::string`, pairwise distinct) and a variant
over `float` and `std::string` holding a float, the float handler returns the `int64_t`
value 4294967301, but `match(v)(...)` returns the `int32_t` value 5: the result is converted
to `result_type`, the result type of the last handler. -/
theorem match_result_converted_counterexample :
    (([wide_float_lambda exactFloats, string_lambda exactFloats]).map
      (fun g => g.param)).Nodup ∧
    wide_float_lambda exactFloats ∈
      [wide_float_lambda exactFloats, string_lambda exactFloats] ∧
    (invoke (wide_float_lambda exactFloats) (0 : ℚ) []).1 = (4294967301 : Int) ∧
    (match_ .lvalue (⟨.float, by decide, (0 : ℚ)⟩ :
        boost_variant exactFloats [.float, .string])).call
      [wide_float_lambda exactFloats, string_lambda exactFloats] [] =
      .ok ⟨⟨.int32, (5 : Int)⟩, ⟨.float, by decide, (0 : ℚ)⟩, []⟩ ∧
    ¬ @DispatchesAs exactFloats [.float, .string] .lvalue
      [wide_float_lambda exactFloats, string_lambda exactFloats]
      (wide_float_lambda exactFloats) (by decide) (0 : ℚ) [] := by
  refine ⟨by decide, by simp, rfl, rfl, ?_⟩
  intro h
  unfold DispatchesAs at h
  have h2 : (match_ .lvalue (⟨.float, by decide, (0 : ℚ)⟩ :
        boost_variant exactFloats [.float, .string])).call
      [wide_float_lambda exactFloats, string_lambda exactFloats] [] =
      .ok ⟨⟨.int32, (5 : Int)⟩, ⟨.float, by decide, (0 : ℚ)⟩, []⟩ := rfl
  have h3 := h2.symm.trans h
  injection h3 with h3
  have := congrArg (fun o => o.result.ty) h3
  exact absurd this (by decide)

/-- C1 (amended): let the handlers `hs` have pairwise distinct accepted types, let `h` be
one of them and let the variant hold payload `p` of type `h.param`.  If `match(v)(hs...)` is
well-formed (the visitor call instantiates for every alternative of the variant type) and
the parameter of `h` can bind to the payload as `match` passes it (a non-const lvalue `v`,
or `h` does not take a non-const reference), then the dispatch is exactly the single call
`h(p)` (same argument effect, same output) and returns the result of `h` converted to the
result type of the last handler; when `h` has that result type, the result is that of `h`
unmodified. -/
theorem match_exact_handler_dispatch {fs : FloatSem} {alts : List Ty} (cat : ArgCat)
    (hs : List (Handler fs)) (os : overload_set fs) (h : Handler fs) (mem : h.param ∈ alts)
    (p : Carrier fs h.param) (out : Out fs)
    (hos : overload hs = some os)
    (hnd : (hs.map (fun g => g.param)).Nodup) (hmem : h ∈ hs)
    (hbind : operandConst cat = false ∨ h.mode ≠ .mutRef)
    (hwf : instantiateAll os (operandConst cat) alts = .ok ()) :
    (∃ res, convert fs h.result os.result_type (invoke h p out).1 = some res ∧
      (match_ cat (⟨h.param, mem, p⟩ : boost_variant fs alts)).call hs out =
        .ok ⟨⟨os.result_type, res⟩, ⟨h.param, mem, (invoke h p out).2.1⟩,
          (invoke h p out).2.2⟩) ∧
    (h.result = os.result_type → DispatchesAs cat hs h mem p out) := by
  obtain ⟨hco, _⟩ := overload_some hos
  obtain ⟨f, arg, res, hr, harg, hres, hcall⟩ :=
    apply_visitor_ok os (operandConst cat) (⟨h.param, mem, p⟩ : boost_variant fs alts) out hwf
  have hf : f = h := resolve_exact os (operandConst cat) h f (by rw [hco]; exact hnd)
    (by rw [hco]; exact hmem) hbind hr
  subst hf
  simp only [convert_self, Option.some.injEq] at harg
  subst harg
  have hval : (if f.mode = .mutRef then
        (sameObject fs f.param f.param (invoke f p out).2.1).getD p else p) =
      (invoke f p out).2.1 := by
    by_cases hm : f.mode = .mutRef
    · simp [hm, sameObject_self]
    · simp [hm, invoke]
  have hcall2 : (match_ cat (⟨f.param, mem, p⟩ : boost_variant fs alts)).call hs out =
      .ok ⟨⟨os.result_type, res⟩, ⟨f.param, mem, (invoke f p out).2.1⟩,
        (invoke f p out).2.2⟩ := by
    simp only [boost_visitor_facilitator.call, hos, match_]
    rw [← hval]
    exact hcall
  refine ⟨⟨res, hres, hcall2⟩, ?_⟩
  intro hR
  unfold DispatchesAs
  rw [hcall2]
  have : (⟨os.result_type, res⟩ : TVal fs) = ⟨f.result, (invoke f p out).1⟩ := by
    revert res
    rw [← hR]
    intro res hres _ _
    simp only [convert_self, Option.some.injEq] at hres
    rw [hres]
  rw [this]

/-- Witness for C1 (amended): the demo's visitors, `someValue` holding `3.141f`, and
`float_overload` as the matching handler. -/
theorem match_exact_handler_dispatch_witness :
    (∃ res, convert exactFloats (float_overload exactFloats).result .int32
        (invoke (float_overload exactFloats) (exactFloats.lit32 3141 3) []).1 = some res ∧
      (match_ .lvalue (someValue exactFloats)).call (demoVisitors exactFloats) [] =
        .ok ⟨⟨.int32, res⟩,
          ⟨.float, by decide,
            (invoke (float_overload exactFloats) (exactFloats.lit32 3141 3) []).2.1⟩,
          (invoke (float_overload exactFloats) (exactFloats.lit32 3141 3) []).2.2⟩) ∧
    ((float_overload exactFloats).result = .int32 →
      @DispatchesAs exactFloats variantAlts .lvalue (demoVisitors exactFloats)
        (float_overload exactFloats) (by decide) (exactFloats.lit32 3141 3) []) :=
  @match_exact_handler_dispatch exactFloats variantAlts .lvalue (demoVisitors exactFloats)
    (.cons (float_overload exactFloats) (.cons (i32_lambda exactFloats)
      (.cons (i64_lambda exactFloats) (.cons (double_lambda exactFloats)
        (.base (string_lambda exactFloats))))))
    (float_overload exactFloats) (by decide) (exactFloats.lit32 3141 3) [] rfl (by decide)
    (by simp [demoVisitors]) (Or.inl rfl) rfl

/-- C2: for the demo's variant and its five visitors in source order, visited as in `main`
(a non-const lvalue), `match(value)(visitors...)` returns 0 for every float payload, 1 for
every `int32_t`, 2 for every `int64_t`, 3 for every double and 4 for every string, and
`std::cout` receives only the line of the handler of the active alternative; `main` prints
`v: 0` for the initial `3.141f` and `v: 4` once the value is reassigned to the string given
as `argv[1]`, for instance `"hello"`. -/
theorem demo_match_results (fs : FloatSem) (out : Out fs) :
    (∀ f : fs.F32,
      (match_ .lvalue (⟨.float, by decide, f⟩ : variant fs)).call (demoVisitors fs) out =
        .ok ⟨⟨.int32, (0 : Int)⟩, ⟨.float, by decide, fs.inc32 f⟩,
          out ++ [.text "float: ", .val .float f, .endl]⟩) ∧
    (∀ i : Int,
      (match_ .lvalue (⟨.int32, by decide, i⟩ : variant fs)).call (demoVisitors fs) out =
        .ok ⟨⟨.int32, (1 : Int)⟩, ⟨.int32, by decide, i⟩,
          out ++ [.text "i32: ", .val .int32 i, .endl]⟩) ∧
    (∀ i : Int,
      (match_ .lvalue (⟨.int64, by decide, i⟩ : variant fs)).call (demoVisitors fs) out =
        .ok ⟨⟨.int32, (2 : Int)⟩, ⟨.int64, by decide, i⟩,
          out ++ [.text "i64: ", .val .int64 i, .endl]⟩) ∧
    (∀ d : fs.F64,
      (match_ .lvalue (⟨.double, by decide, d⟩ : variant fs)).call (demoVisitors fs) out =
        .ok ⟨⟨.int32, (3 : Int)⟩, ⟨.double, by decide, d⟩,
          out ++ [.text "double: ", .val .double d, .endl]⟩) ∧
    (∀ s : String,
      (match_ .lvalue (⟨.string, by decide, s⟩ : variant fs)).call (demoVisitors fs) out =
        .ok ⟨⟨.int32, (4 : Int)⟩, ⟨.string, by decide, s⟩,
          out ++ [.text "string: ", .val .string s, .endl]⟩) ∧
    (∀ prog : String,
      main fs [prog] =
        .ok ⟨0, [.text "float: ", .val .float (fs.lit32 3141 3), .endl,
          .text "v: ", .val .int32 (0 : Int), .endl]⟩) ∧
    (∀ prog : String,
      main fs [prog, "hello"] =
        .ok ⟨0, [.text "string: ", .val .string "hello", .endl,
          .text "v: ", .val .int32 (4 : Int), .endl]⟩) :=
  ⟨fun _ => rfl, fun _ => rfl, fun _ => rfl, fun _ => rfl, fun _ => rfl, fun _ => rfl,
    fun _ => rfl⟩

/-! ## Composition -/

/-- C3: for a non-empty handler list with pairwise distinct accepted types and one common
result type `R`, `overload` yields an `overload_set` whose visible call operators accept
exactly the handlers' accepted types, one call form per handler, and whose `result_type`
is `R`. -/
theorem overload_exposes_accepted_types {fs : FloatSem} (hs : List (Handler fs)) (R : Ty)
    (hne : hs ≠ [])
    (hdistinct : (hs.map (fun h => h.param)).Nodup)
    (hres : ∀ h ∈ hs, h.result = R) :
    ∃ os, overload hs = some os ∧
      (∀ t, (∃ f ∈ os.callOperators, f.param = t) ↔ ∃ h ∈ hs, h.param = t) ∧
      (os.callOperators.map (fun f => f.param)).Nodup ∧
      os.callOperators.length = hs.length ∧
      os.result_type = R := by
  obtain ⟨os, h1, h2, h3⟩ := overload_spec hs hne
  refine ⟨os, h1, ?_, ?_, ?_, ?_⟩
  · intro t
    rw [h2]
  · rw [h2]
    exact hdistinct
  · rw [h2]
  · rw [h3]
    exact hres _ (List.getLast_mem hne)

/-- Witness for C3: the five visitors of the demo. -/
theorem overload_exposes_accepted_types_witness :
    ∃ os, overload (demoVisitors exactFloats) = some os ∧
      (∀ t, (∃ f ∈ os.callOperators, f.param = t) ↔
        ∃ h ∈ demoVisitors exactFloats, h.param = t) ∧
      (os.callOperators.map (fun f => f.param)).Nodup ∧
      os.callOperators.length = (demoVisitors exactFloats).length ∧
      os.result_type = .int32 :=
  overload_exposes_accepted_types (demoVisitors exactFloats) .int32 (by simp [demoVisitors])
    (by decide)
    (by
      intro h hh
      simp only [demoVisitors, List.mem_cons, List.mem_singleton, List.not_mem_nil,
        or_false] at hh
      rcases hh with rfl | rfl | rfl | rfl | rfl <;> rfl)

/-- C4, as stated, fails: `float_overload` (taking `float&`) and the closure
`[](const float& f) { return 5; }` accept the same type `float`, yet `overload` composes
them, and `match(v)(...)` on a variant over `float` holding `3.141f` is well-formed and calls
`float_overload`: a reference to non-const is the better binding for a non-const lvalue. -/
theorem same_type_handlers_compose_counterexample :
    (float_overload exactFloats).param = (float_cref_lambda exactFloats).param ∧
    (overload [float_overload exactFloats, float_cref_lambda exactFloats]).isSome = true ∧
    (match_ .lvalue (⟨.float, by decide, exactFloats.lit32 3141 3⟩ :
        boost_variant exactFloats [.float])).call
      [float_overload exactFloats, float_cref_lambda exactFloats] [] =
      .ok ⟨⟨.int32, (0 : Int)⟩,
        ⟨.float, by decide, exactFloats.inc32 (exactFloats.lit32 3141 3)⟩,
        [.text "float: ", .val .float (exactFloats.lit32 3141 3), .endl]⟩ :=
  ⟨rfl, rfl, rfl⟩

/-- C4 (amended): `overload` itself detects no duplicates.  When two handlers at different
positions of the list both take the type `t` by value, all call operators of the list being
const-qualified, the visitor call for alternative `t` is ambiguous, and `match(v)(hs...)`
is rejected for every variant type that has `t` among its alternatives, whatever the other
handlers are, however `v` is passed and whichever alternative `v` holds. -/
theorem duplicate_by_value_handlers_ambiguous {fs : FloatSem} {alts : List Ty}
    (hs : List (Handler fs)) (t : Ty)
    (i j : Nat) (hi : i < hs.length) (hj : j < hs.length) (hij : i ≠ j)
    (hpi : hs[i].param = t) (hmi : hs[i].mode = .byValue)
    (hpj : hs[j].param = t) (hmj : hs[j].mode = .byValue)
    (hconst : ∀ h ∈ hs, h.constCall = true) (ht : t ∈ alts) :
    ∃ os, overload hs = some os ∧
      ∀ cat : ArgCat,
        resolve os t (operandConst cat) = .error (.ambiguous t) ∧
        ∀ (v : boost_variant fs alts) (out : Out fs),
          ∃ e, (match_ cat v).call hs out = .error e := by
  have hne : hs ≠ [] := by
    rintro rfl
    simp at hi
  obtain ⟨os, h1, h2, _⟩ := overload_spec hs hne
  refine ⟨os, h1, ?_⟩
  intro cat
  have hr : resolve os t (operandConst cat) = .error (.ambiguous t) := by
    rcases Nat.lt_or_gt_of_ne hij with hlt | hgt
    · exact resolve_ambiguous os t _ hs[i] hs[j]
        (by rw [h2]; exact pair_sublist hs i j hi hj hlt) hpi hmi hpj hmj
        (by rw [h2]; exact hconst)
    · exact resolve_ambiguous os t _ hs[j] hs[i]
        (by rw [h2]; exact pair_sublist hs j i hj hi hgt) hpj hmj hpi hmi
        (by rw [h2]; exact hconst)
  refine ⟨hr, ?_⟩
  intro v out
  exact call_error_of_instantiate_error cat v hs os out h1 t ht
    (instantiate_error_of_resolve_error os _ t _ hr)

/-- Witness for C4 (amended): two closures taking `int32_t` by value, first and third of
three handlers, against the demo's variant. -/
theorem duplicate_by_value_handlers_ambiguous_witness :
    ∃ os, overload [i32_lambda exactFloats, string_lambda exactFloats,
        i32_lambda_seven exactFloats] = some os ∧
      ∀ cat : ArgCat,
        resolve os .int32 (operandConst cat) = .error (.ambiguous .int32) ∧
        ∀ (v : variant exactFloats) (out : Out exactFloats),
          ∃ e, (match_ cat v).call [i32_lambda exactFloats, string_lambda exactFloats,
            i32_lambda_seven exactFloats] out = .error e :=
  duplicate_by_value_handlers_ambiguous
    [i32_lambda exactFloats, string_lambda exactFloats, i32_lambda_seven exactFloats]
    .int32 0 2 (by decide) (by decide) (by decide) rfl rfl rfl rfl
    (by
      intro h hh
      simp only [List.mem_cons, List.mem_singleton, List.not_mem_nil, or_false] at hh
      rcases hh with rfl | rfl | rfl <;> rfl)
    (by decide)

/-- C5, as stated, fails: `[](float) { return 4294967301L; }` returns `int64_t` and the
demo's string closure returns `int`, yet `overload` composes them and `match(v)(...)` on a
variant over `float` and `std::string` is well-formed; holding `"hello"` it returns 4. -/
theorem differing_result_types_compose_counterexample :
    (wide_float_lambda exactFloats).result ≠ (string_lambda exactFloats).result ∧
    (overload [wide_float_lambda exactFloats, string_lambda exactFloats]).isSome = true ∧
    (match_ .lvalue (⟨.string, by decide, "hello"⟩ :
        boost_variant exactFloats [.float, .string])).call
      [wide_float_lambda exactFloats, string_lambda exactFloats] [] =
      .ok ⟨⟨.int32, (4 : Int)⟩, ⟨.string, by decide, "hello"⟩,
        [.text "string: ", .val .string "hello", .endl]⟩ :=
  ⟨by decide, rfl, rfl⟩

/-- C5 (amended): composition never compares result types: `overload` succeeds for every
non-empty handler list.  `match(v)(hs...)` is well-formed exactly when, for every
alternative of the variant type, the visitor call resolves to a handler whose result type
has an implicit conversion to `result_type` (the last handler's result type); equality of
the result types is not required. -/
theorem match_well_formed_iff_results_convertible {fs : FloatSem} (hs : List (Handler fs))
    (hne : hs ≠ []) :
    ∃ os, overload hs = some os ∧
      ∀ (alts : List Ty) (cat : ArgCat) (v : boost_variant fs alts) (out : Out fs),
        (∃ o, (match_ cat v).call hs out = .ok o) ↔
          ∀ t ∈ alts, ∃ h, resolve os t (operandConst cat) = .ok h ∧
            (stdConv h.result os.result_type).isSome = true := by
  obtain ⟨os, h1, _, _⟩ := overload_spec hs hne
  refine ⟨os, h1, ?_⟩
  intro alts cat v out
  rw [call_ok_iff cat v hs os out h1, instantiateAll_ok_iff]
  constructor
  · intro h t ht
    obtain ⟨g, hg⟩ := h t ht
    exact ⟨g, (instantiate_ok_iff os _ t g).1 hg⟩
  · intro h t ht
    obtain ⟨g, hg⟩ := h t ht
    exact ⟨g, (instantiate_ok_iff os _ t g).2 hg⟩

/-- Witness for C5 (amended): a handler returning `int64_t` followed by one returning
`int`. -/
theorem match_well_formed_iff_results_convertible_witness :
    ∃ os, overload [wide_float_lambda exactFloats, string_lambda exactFloats] = some os ∧
      ∀ (alts : List Ty) (cat : ArgCat) (v : boost_variant exactFloats alts)
        (out : Out exactFloats),
        (∃ o, (match_ cat v).call
            [wide_float_lambda exactFloats, string_lambda exactFloats] out = .ok o) ↔
          ∀ t ∈ alts, ∃ h, resolve os t (operandConst cat) = .ok h ∧
            (stdConv h.result os.result_type).isSome = true :=
  match_well_formed_iff_results_convertible
    [wide_float_lambda exactFloats, string_lambda exactFloats] (by simp)

/-! ## Coverage -/

/-- C6, as stated, fails: the handlers `[](double)` and `[](std::string)` of the demo do not
accept `float`, yet `match(someValue)(...)` on the demo's variant is well-formed, and with
`someValue` holding the float `3.141f` it calls the double handler on the promoted payload
and returns 3. -/
theorem float_routed_to_double_counterexample :
    (∀ h ∈ [double_lambda exactFloats, string_lambda exactFloats], h.param ≠ .float) ∧
    (match_ .lvalue (someValue exactFloats)).call
      [double_lambda exactFloats, string_lambda exactFloats] [] =
      .ok ⟨⟨.int32, (3 : Int)⟩, someValue exactFloats,
        [.text "double: ", .val .double (exactFloats.promote (exactFloats.lit32 3141 3)),
          .endl]⟩ := by
  refine ⟨?_, rfl⟩
  intro h hh
  simp only [List.mem_cons, List.mem_singleton, List.not_mem_nil, or_false] at hh
  rcases hh with rfl | rfl <;> decide

/-- C6 (amended): when the variant type has an alternative `t` from which no handler's
accepted type can be initialised, not even by implicit conversion, the visitor call for `t`
has no viable handler and `match(v)(hs...)` is rejected, whichever alternative `v` holds.
Nothing else is checked: an alternative without a handler of its own type goes to the
handler reached by the best implicit conversion. -/
theorem uncovered_alternative_no_viable {fs : FloatSem} {alts : List Ty}
    (hs : List (Handler fs)) (t : Ty)
    (hne : hs ≠ []) (ht : t ∈ alts)
    (hnone : ∀ h ∈ hs, stdConv t h.param = none) :
    ∃ os, overload hs = some os ∧
      ∀ cat : ArgCat,
        resolve os t (operandConst cat) = .error (.noViable t) ∧
        ∀ (v : boost_variant fs alts) (out : Out fs),
          ∃ e, (match_ cat v).call hs out = .error e := by
  obtain ⟨os, h1, h2, _⟩ := overload_spec hs hne
  refine ⟨os, h1, ?_⟩
  intro cat
  have hr : resolve os t (operandConst cat) = .error (.noViable t) := by
    unfold resolve
    rw [viable_nil_of_no_conv os t _ (by rw [h2]; exact hnone)]
    rfl
  refine ⟨hr, ?_⟩
  intro v out
  exact call_error_of_instantiate_error cat v hs os out h1 t ht
    (instantiate_error_of_resolve_error os _ t _ hr)

/-- Witness for C6 (amended): the double closure alone against the demo's variant, whose
`std::string` alternative it cannot take. -/
theorem uncovered_alternative_no_viable_witness :
    ∃ os, overload [double_lambda exactFloats] = some os ∧
      ∀ cat : ArgCat,
        resolve os .string (operandConst cat) = .error (.noViable .string) ∧
        ∀ (v : variant exactFloats) (out : Out exactFloats),
          ∃ e, (match_ cat v).call [double_lambda exactFloats] out = .error e :=
  uncovered_alternative_no_viable [double_lambda exactFloats] .string (by simp) (by decide)
    (by
      intro h hh
      simp only [List.mem_singleton] at hh
      subst hh
      rfl)

/-! ## The unified result type -/

/-- C7, as stated, fails: for `[](float) { return 4294967301L; }` followed by the demo's
string closure, the first handler returns `int64_t` but `result_type` is `int`, the result
type of the second. -/
theorem result_type_not_first_counterexample :
    ∃ os, overload [wide_float_lambda exactFloats, string_lambda exactFloats] = some os ∧
      (wide_float_lambda exactFloats).result = .int64 ∧
      os.result_type = .int32 ∧
      os.result_type ≠ (wide_float_lambda exactFloats).result :=
  ⟨_, rfl, rfl, rfl, by decide⟩

/-- C7 (amended): for every non-empty handler list, `overload_set<...>::result_type` is the
result type of the last handler in declaration order, and that is the type of the value
every well-formed `match(v)(hs...)` returns. -/
theorem result_type_is_last_handler {fs : FloatSem} (hs : List (Handler fs))
    (hne : hs ≠ []) :
    ∃ os, overload hs = some os ∧ os.result_type = (hs.getLast hne).result ∧
      ∀ (alts : List Ty) (cat : ArgCat) (v : boost_variant fs alts) (out : Out fs)
        (o : Outcome fs alts),
        (match_ cat v).call hs out = .ok o → o.result.ty = (hs.getLast hne).result := by
  obtain ⟨os, h1, _, h3⟩ := overload_spec hs hne
  refine ⟨os, h1, h3, ?_⟩
  intro alts cat v out o ho
  have hwf := (call_ok_iff cat v hs os out h1).1 ⟨o, ho⟩
  obtain ⟨_, _, _, _, _, _, hcall⟩ := apply_visitor_ok os (operandConst cat) v out hwf
  rw [call_eq cat v hs os out h1, hcall] at ho
  cases ho
  exact h3

/-- Witness for C7 (amended): a handler returning `int64_t` followed by one returning
`int`. -/
theorem result_type_is_last_handler_witness :
    ∃ os, overload [wide_float_lambda exactFloats, string_lambda exactFloats] = some os ∧
      os.result_type =
        ([wide_float_lambda exactFloats, string_lambda exactFloats].getLast
          (by simp)).result ∧
      ∀ (alts : List Ty) (cat : ArgCat) (v : boost_variant exactFloats alts)
        (out : Out exactFloats) (o : Outcome exactFloats alts),
        (match_ cat v).call [wide_float_lambda exactFloats, string_lambda exactFloats] out =
            .ok o →
          o.result.ty =
            ([wide_float_lambda exactFloats, string_lambda exactFloats].getLast
              (by simp)).result :=
  result_type_is_last_handler [wide_float_lambda exactFloats, string_lambda exactFloats]
    (by simp)

/-! ## Order of the handlers -/

/-- C8: for a handler list with one common result type, every permutation of it and every
variant value whose active alternative has a handler, `match(v)` applied to the list and to
the permutation select the same handler for the active alternative and give the same
outcome (result, variant, output).  The distinctness of the accepted types that the claim
assumes is not needed. -/
theorem match_perm_invariant {fs : FloatSem} {alts : List Ty} (hs hs' : List (Handler fs))
    (R : Ty) (cat : ArgCat) (v : boost_variant fs alts) (out : Out fs)
    (hperm : hs.Perm hs')
    (hres : ∀ h ∈ hs, h.result = R)
    (hcov : ∃ h ∈ hs, h.param = v.which) :
    (match_ cat v).call hs out = (match_ cat v).call hs' out ∧
    ∀ os os', overload hs = some os → overload hs' = some os' →
      resolve os v.which (operandConst cat) = resolve os' v.which (operandConst cat) := by
  obtain ⟨h0, hh0, _⟩ := hcov
  have hne : hs ≠ [] := List.ne_nil_of_mem hh0
  have hne' : hs' ≠ [] := List.ne_nil_of_mem (hperm.mem_iff.1 hh0)
  obtain ⟨os, h1, h2, h3⟩ := overload_spec hs hne
  obtain ⟨os', h1', h2', h3'⟩ := overload_spec hs' hne'
  have hp : os.callOperators.Perm os'.callOperators := by rw [h2, h2']; exact hperm
  have hR : os.result_type = os'.result_type := by
    rw [h3, h3', hres _ (List.getLast_mem hne),
      hres _ (hperm.mem_iff.2 (List.getLast_mem hne'))]
  constructor
  · rw [call_eq cat v hs os out h1, call_eq cat v hs' os' out h1']
    exact apply_visitor_perm os os' _ v out hp hR
  · intro o o' ho ho'
    rw [h1] at ho
    rw [h1'] at ho'
    cases ho
    cases ho'
    exact resolve_perm os os' _ _ hp

/-- Witness for C8: the demo's visitors and the same visitors in reverse order, on
`someValue` holding `3.141f`. -/
theorem match_perm_invariant_witness :
    (match_ .lvalue (someValue exactFloats)).call (demoVisitors exactFloats) [] =
      (match_ .lvalue (someValue exactFloats)).call (demoVisitors exactFloats).reverse [] ∧
    ∀ os os', overload (demoVisitors exactFloats) = some os →
      overload (demoVisitors exactFloats).reverse = some os' →
      resolve os (someValue exactFloats).which (operandConst .lvalue) =
        resolve os' (someValue exactFloats).which (operandConst .lvalue) :=
  match_perm_invariant (demoVisitors exactFloats) (demoVisitors exactFloats).reverse .int32
    .lvalue (someValue exactFloats) [] (List.reverse_perm _).symm
    (by
      intro h hh
      simp only [demoVisitors, List.mem_cons, List.mem_singleton, List.not_mem_nil,
        or_false] at hh
      rcases hh with rfl | rfl | rfl | rfl | rfl <;> rfl)
    ⟨float_overload exactFloats, by simp [demoVisitors], rfl⟩

/-! ## Access to the payload -/

/-- C9, as stated, fails: for a temporary (rvalue) variant `TVariant` is deduced as the
plain variant type, so `visitable_` is a `const variant&` although the argument was not
const.  The payload is then passed as a const float, `float_overload` (which declares
`float&`) is no candidate, and the demo's visitors send the float `3.141f` to the double
closure: the dispatch returns 3 and the payload is not incremented. -/
theorem rvalue_match_forces_const_counterexample :
    (deduceTVariant .rvalue).isConst = false ∧
    (match_ .rvalue (someValue exactFloats)).visitableType.isConst = true ∧
    (match_ .rvalue (someValue exactFloats)).call (demoVisitors exactFloats) [] =
      .ok ⟨⟨.int32, (3 : Int)⟩, someValue exactFloats,
        [.text "double: ", .val .double (exactFloats.promote (exactFloats.lit32 3141 3)),
          .endl]⟩ :=
  ⟨rfl, rfl, rfl⟩

/-- C9 (amended): `match` passes the payload as a non-const object exactly when its
argument is a non-const lvalue.  In every well-formed `match(v)(hs...)` a handler of the
list is selected for the active alternative; if it declares a non-const reference
parameter, then `v` is a non-const lvalue, the parameter is the stored payload itself and
the variant afterwards holds what the handler left in it; if it declares a by-value or
const-reference parameter, the variant is unchanged.  For a const or temporary `v` no
handler with a non-const reference parameter is ever selected. -/
theorem match_access_mode {fs : FloatSem} {alts : List Ty} (cat : ArgCat)
    (v : boost_variant fs alts) (hs : List (Handler fs)) (os : overload_set fs) (out : Out fs)
    (hos : overload hs = some os)
    (hwf : instantiateAll os (operandConst cat) alts = .ok ()) :
    (operandConst cat = false ↔ cat = .lvalue) ∧
    ∃ h o, h ∈ hs ∧ resolve os v.which (operandConst cat) = .ok h ∧
      (match_ cat v).call hs out = .ok o ∧
      (h.mode = .mutRef →
        cat = .lvalue ∧
        ∃ arg p', sameObject fs v.which h.param v.payload = some arg ∧
          sameObject fs h.param v.which (h.body arg out).2.1 = some p' ∧
          o.value = ⟨v.which, v.mem, p'⟩) ∧
      (h.mode ≠ .mutRef → o.value = v) := by
  refine ⟨operandConst_eq_false cat, ?_⟩
  obtain ⟨hco, _⟩ := overload_some hos
  obtain ⟨h, arg, res, hr, harg, hres, hcall⟩ :=
    apply_visitor_ok os (operandConst cat) v out hwf
  have hv := viable_mem.1 (resolve_ok_mem hr).1
  refine ⟨h, _, by rw [← hco]; exact hv.1, hr, (call_eq cat v hs os out hos).trans hcall,
    ?_, ?_⟩
  · intro hm
    obtain ⟨ht, hc⟩ := argICS_mutRef h v.which _ hm hv.2
    refine ⟨(operandConst_eq_false cat).1 hc, arg, ?_⟩
    obtain ⟨p', hp'⟩ := sameObject_isSome fs h.param v.which (h.body arg out).2.1 ht.symm
    refine ⟨p', ?_, hp', ?_⟩
    · rw [sameObject_eq_convert _ _ _ ht]
      exact harg
    · simp only [hm, if_true, invoke, hp', Option.getD_some]
  · intro hm
    simp only [hm, if_false]

/-- Witness for C9 (amended): the demo's visitors on the non-const lvalue `someValue`
holding `3.141f`. -/
theorem match_access_mode_witness :
    (operandConst .lvalue = false ↔ ArgCat.lvalue = .lvalue) ∧
    ∃ h o, h ∈ demoVisitors exactFloats ∧
      resolve (.cons (float_overload exactFloats) (.cons (i32_lambda exactFloats)
        (.cons (i64_lambda exactFloats) (.cons (double_lambda exactFloats)
          (.base (string_lambda exactFloats))))))
        (someValue exactFloats).which (operandConst .lvalue) = .ok h ∧
      (match_ .lvalue (someValue exactFloats)).call (demoVisitors exactFloats) [] = .ok o ∧
      (h.mode = .mutRef →
        ArgCat.lvalue = .lvalue ∧
        ∃ arg p',
          sameObject exactFloats (someValue exactFloats).which h.param
            (someValue exactFloats).payload = some arg ∧
          sameObject exactFloats h.param (someValue exactFloats).which
            (h.body arg []).2.1 = some p' ∧
          o.value = ⟨(someValue exactFloats).which, (someValue exactFloats).mem, p'⟩) ∧
      (h.mode ≠ .mutRef → o.value = someValue exactFloats) :=
  match_access_mode .lvalue (someValue exactFloats) (demoVisitors exactFloats) _ [] rfl rfl

/-! ## Repeated dispatch -/

/-- C10: for a composed handler built from side-effect-free handlers and a well-formed
dispatch on `v`, `match(v)(hs...)` returns a result and leaves `v` and `std::cout` as they
were; visiting `v` with the same composed handler any number of times returns that same
result every time and still leaves `v` and `std::cout` unchanged. -/
theorem dispatch_repeatable {fs : FloatSem} {alts : List Ty} (hs : List (Handler fs))
    (os : overload_set fs) (cat : ArgCat) (v : boost_variant fs alts) (out : Out fs)
    (hos : overload hs = some os)
    (hpure : ∀ h ∈ hs, h.sideEffectFree)
    (hwf : instantiateAll os (operandConst cat) alts = .ok ()) :
    ∃ r, (match_ cat v).call hs out = .ok ⟨r, v, out⟩ ∧
      ∀ n, dispatchRepeat os (operandConst cat) n v out =
        .ok (List.replicate n r, v, out) := by
  obtain ⟨hco, _⟩ := overload_some hos
  obtain ⟨r, hr⟩ := apply_visitor_pure os (operandConst cat) v out
    (by rw [hco]; exact hpure) hwf
  refine ⟨r, (call_eq cat v hs os out hos).trans hr, ?_⟩
  intro n
  induction n with
  | zero => rfl
  | succ n ih =>
    simp only [dispatchRepeat, hr, ih, List.replicate_succ]

/-- Witness for C10: two closures without side effects on a variant over `int32_t` and
`float` holding 42. -/
theorem dispatch_repeatable_witness :
    ∃ r, (match_ .lvalue (⟨.int32, by decide, (42 : Int)⟩ :
          boost_variant exactFloats [.int32, .float])).call
        [i32_lambda_seven exactFloats, float_cref_lambda exactFloats] [] =
        .ok ⟨r, ⟨.int32, by decide, (42 : Int)⟩, []⟩ ∧
      ∀ n, dispatchRepeat
        (.cons (i32_lambda_seven exactFloats) (.base (float_cref_lambda exactFloats)))
        (operandConst .lvalue) n
        (⟨.int32, by decide, (42 : Int)⟩ : boost_variant exactFloats [.int32, .float]) [] =
        .ok (List.replicate n r, ⟨.int32, by decide, (42 : Int)⟩, []) :=
  dispatch_repeatable [i32_lambda_seven exactFloats, float_cref_lambda exactFloats] _
    .lvalue _ [] rfl
    (by
      intro h hh
      simp only [List.mem_cons, List.mem_singleton, List.not_mem_nil, or_false] at hh
      rcases hh with rfl | rfl <;> intro arg out <;> exact ⟨rfl, rfl⟩)
    rfl

end VariantVisitation
